import Mathlib

/-!
# Verification of the cairo-board UCI adapter (src/uci-adapter.c)

A shallow embedding of the UCI-adapter module of cairo-board.  The session
state (globals `uci_mode`, `pondering`, `analysing`, `ply_num`, `to_play`,
`all_moves`, `uci_ready`, `promo_type`, `engine_name`) is modelled as a
structure; each C function that reads or mutates that state becomes a Lean
function from the state to a new state paired with the list of externally
observable effects (commands written to the engine pipe, clock operations,
GUI notifications), in the order the C code performs them.

POSIX extended-regex matching is only used in the source on a handful of
fixed patterns; each `regexec` call is embedded as a dedicated search
function implementing leftmost-longest matching for that concrete pattern.

Machine-integer remarks: the C `int`/`long` values handled here (centipawn
scores, mate counts, nodes per second, clock times) are embedded as `Int`;
for the inputs the spec quantifies over (engine scores and clock readings)
the C values are far from the 32/64-bit bounds, so no wraparound is
modelled.  `snprintf("%.2f", v / 100.0)` on an `int` v is embedded as the
exact fixed-point rendering of v/100 with two fraction digits, which is the
value `%.2f` prints for every |v| representable as an `int`.
-/

set_option maxRecDepth 4096

/-- The `UCI_MODE` enumeration from uci-adapter.h. -/
inductive UCI_MODE where
  | ENGINE_WHITE
  | ENGINE_BLACK
  | ENGINE_ANALYSIS
deriving DecidableEq, Repr

/-- Externally observable effects of the adapter, in program order:
writes to the engine's stdin (`write_to_uci`), clock-collaborator calls
(`start_one_clock`, `start_one_stop_other_clock`), and GUI notifications
(`set_last_move`, the got-uci-move signal, and the analysis-panel setters). -/
inductive Event where
  | write_to_uci (s : String)
  | start_one_clock (side : Nat)
  | start_one_stop_other (side : Nat) (lockThreads : Bool)
  | set_last_move (mv : String)
  | got_uci_move
  | set_analysis_score (s : String)
  | set_analysis_best_line (s : String)
  | set_analysis_nps (s : String)
  | start_game_call (white black : String) (t : Int) (relation : Int)
deriving DecidableEq, Repr

/-- The mutable globals of uci-adapter.c that constitute the session state.
`toPlay` is the C `int to_play` (used only as zero/nonzero); `allMoves` is
the contents of the `all_moves` buffer up to its terminating null;
`promoType` is the global `promo_type` set on promotions. -/
structure UciState where
  uciMode : UCI_MODE
  pondering : Bool
  analysing : Bool
  plyNum : Nat
  toPlay : Nat
  allMoves : String
  uciReady : Bool
  promoType : Int
  engineName : String
deriving DecidableEq, Repr

/-- External collaborators the adapter calls into: `char_to_type` from the
chess backend, the global `ics_mode` flag, and the two
`get_remaining_time(main_clock, 0/1)` readings. -/
structure Params where
  charToType : Char → Int
  icsMode : Bool
  wtime : Int
  btime : Int

/-- Suffix of `s` after the first (leftmost) occurrence of `pat`; `none`
when `pat` does not occur.  This is the POSIX leftmost match of a regex of
the form `pat(.*)` with the greedy capture running to the end of the line. -/
def after_first (pat : List Char) : List Char → Option (List Char)
  | [] => none
  | c :: rest =>
    if List.isPrefixOf pat (c :: rest) then some (List.drop pat.length (c :: rest))
    else after_first pat rest

/-- Split of `s` around the last occurrence of `pat`; `none` when `pat`
does not occur.  Used for the greedy first group of
`bestmove (.*) ponder (.*)`: the first `(.*)` extends to the last
occurrence of the literal between the groups. -/
def split_last (pat : List Char) : List Char → Option (List Char × List Char)
  | [] => none
  | c :: rest =>
    match split_last pat rest with
    | some (a, b) => some (c :: a, b)
    | none =>
      if List.isPrefixOf pat (c :: rest) then some ([], List.drop pat.length (c :: rest))
      else none

/-- Leftmost-longest search for the pattern `pat` followed by a capture
recognized by `extract` (the embedding of `regexec` on patterns of the form
`pat(CAPTURE)`): at the leftmost position where the whole pattern matches,
return the captured value; positions where `pat` occurs but the capture
part fails are skipped, as POSIX `regexec` keeps searching. -/
def find_capture (pat : List Char) (extract : List Char → Option Int) : List Char → Option Int
  | [] => none
  | c :: rest =>
    if List.isPrefixOf pat (c :: rest) then
      match extract (List.drop pat.length (c :: rest)) with
      | some v => some v
      | none => find_capture pat extract rest
    else find_capture pat extract rest

/-- Maximal leading digit run (the longest match of `[0-9]+`). -/
def take_digits (s : List Char) : List Char :=
  s.takeWhile (fun c => c.isDigit)

/-- Decimal value of a digit run (the embedding of `strtol` on the
captured text, which is all digits). -/
def digits_to_nat (ds : List Char) : Nat :=
  ds.foldl (fun a c => a * 10 + (c.toNat - 48)) 0

/-- Capture for `(-?[0-9]+)` at the start of `s`: optional minus sign then
at least one digit, digits taken greedily. -/
def int_capture (s : List Char) : Option Int :=
  match s with
  | '-' :: rest =>
    if take_digits rest = [] then none else some (-(digits_to_nat (take_digits rest) : Int))
  | _ =>
    if take_digits s = [] then none else some ((digits_to_nat (take_digits s) : Int))

/-- Capture for `([0-9]+)` at the start of `s`. -/
def nat_capture (s : List Char) : Option Int :=
  if take_digits s = [] then none else some ((digits_to_nat (take_digits s) : Int))

/-- `regexec(&best_move_matcher, line)`: pattern `bestmove (.*)`; the
capture is everything after the first occurrence of the literal
`bestmove `. -/
def best_move_capture (line : String) : Option String :=
  (after_first "bestmove ".toList line.toList).map (fun cs => String.mk cs)

/-- `regexec(&best_move_ponder_matcher, line)`: pattern
`bestmove (.*) ponder (.*)`; the first group is greedy, so it runs to the
last occurrence of ` ponder ` after the first `bestmove `. -/
def best_move_ponder_capture (line : String) : Option (String × String) :=
  match after_first "bestmove ".toList line.toList with
  | none => none
  | some rest =>
    match split_last " ponder ".toList rest with
    | none => none
    | some (a, b) => some (String.mk a, String.mk b)

/-- `regexec(&info_score_cp_matcher, line)`: pattern `score cp (-?[0-9]+)`. -/
def find_score_cp (line : String) : Option Int :=
  find_capture "score cp ".toList int_capture line.toList

/-- `regexec(&info_score_mate_matcher, line)`: pattern `score mate (-?[0-9]+)`. -/
def find_score_mate (line : String) : Option Int :=
  find_capture "score mate ".toList int_capture line.toList

/-- `regexec(&info_nps_matcher, line)`: pattern `nps ([0-9]+)`. -/
def find_nps (line : String) : Option Int :=
  find_capture "nps ".toList nat_capture line.toList

/-- Character class `[a-h1-8 ]` of the principal-variation pattern. -/
def is_pv_char (c : Char) : Bool :=
  ('a' ≤ c && c ≤ 'h') || ('1' ≤ c && c ≤ '8') || c = ' '

/-- `regexec(&info_best_line_matcher, line)`: pattern ` pv ([a-h1-8 ]+)`. -/
def find_pv : List Char → Option String
  | [] => none
  | c :: rest =>
    if List.isPrefixOf " pv ".toList (c :: rest) then
      match (List.drop 4 (c :: rest)).takeWhile is_pv_char with
      | [] => find_pv rest
      | run => some (String.mk run)
    else find_pv rest

/-- The score sign flip of `parse_info`: the raw value is negated
unconditionally in mode `ENGINE_BLACK`, negated when `to_play` is nonzero
in mode `ENGINE_ANALYSIS`, and left alone in mode `ENGINE_WHITE`. -/
def sign_adjust (mode : UCI_MODE) (toPlay : Nat) (v : Int) : Int :=
  match mode with
  | UCI_MODE.ENGINE_ANALYSIS => if toPlay ≠ 0 then -v else v
  | UCI_MODE.ENGINE_BLACK => -v
  | UCI_MODE.ENGINE_WHITE => v

/-- `snprintf(buf, 16, "%.2f", v / 100.0)` for an `int` v: the exact
fixed-point rendering of v/100 with two fraction digits. -/
def format_cp (v : Int) : String :=
  (if v < 0 then "-" else "")
    ++ toString (v.natAbs / 100) ++ "."
    ++ (if v.natAbs % 100 < 10 then "0" else "") ++ toString (v.natAbs % 100)

/-- `append_move(new_move, lock_threads)`: appends a space and the token to
`all_moves`, toggles `to_play`, drives the clock collaborator (skipped
entirely when the global `ics_mode` is set; `start_one_clock` on the first
ply, `start_one_stop_other_clock` on later plies), and increments
`ply_num`.  The clock calls receive the already-toggled `to_play`, and the
ply test uses the not-yet-incremented `ply_num`, as in the C code. -/
def append_move (icsMode : Bool) (mv : String) (lockThreads : Bool) (st : UciState) :
    UciState × List Event :=
  let toPlay1 : Nat := if st.toPlay ≠ 0 then 0 else 1
  let clockEvs : List Event :=
    if icsMode then []
    else if st.plyNum = 1 then [Event.start_one_clock toPlay1]
    else if 1 < st.plyNum then [Event.start_one_stop_other toPlay1 lockThreads]
    else []
  ({st with
      allMoves := st.allMoves ++ " " ++ mv,
      toPlay := toPlay1,
      plyNum := st.plyNum + 1},
   clockEvs)

/-- `wait_for_engine()` as seen by the session: clears the ready flag and
writes `isready`.  The internal poll loop, which depends on wall-clock
time and on the reader thread setting the flag, is modelled separately by
`wait_for_engine_loop`. -/
def wait_for_engine (st : UciState) : UciState × List Event :=
  ({st with uciReady := false}, [Event.write_to_uci "isready\n"])

/-- The poll loop inside `wait_for_engine`: `flag k` is the value of
`uci_ready` observed at the k-th top-of-loop test, `elapsedSec k` the
`diff.tv_sec` computed after the k-th one-millisecond sleep.  The loop
exits with no warning as soon as the flag reads true, or with the
suspected-crash warning (second component `true`) when the elapsed seconds
exceed 3.  `fuel` bounds the number of iterations modelled; since real
elapsed time grows without bound, any fuel at which `elapsedSec` has
passed 3 suffices (see the termination theorem). -/
def wait_for_engine_loop (flag : Nat → Bool) (elapsedSec : Nat → Nat) :
    Nat → Nat → Option (Nat × Bool)
  | 0, _ => none
  | fuel + 1, k =>
    if flag k then some (k, false)
    else if 3 < elapsedSec (k + 1) then some (k + 1, true)
    else wait_for_engine_loop flag elapsedSec fuel (k + 1)

/-- `start_new_uci_game(time, mode)`: stores the mode; writes `stop` iff
pondering or analysing; rendezvous; clears the history buffer to the bare
position marker and resets `ply_num`, `to_play` and `pondering`; writes
`ucinewgame`; rendezvous; then per mode: ENGINE_WHITE calls `start_game`
and writes `position startpos` plus a timed `go`, ENGINE_BLACK only calls
`start_game`, ENGINE_ANALYSIS writes `position startpos` plus
`go infinite` and sets `analysing`. -/
def start_new_uci_game (p : Params) (t : Int) (mode : UCI_MODE) (st0 : UciState) :
    UciState × List Event :=
  let stA := {st0 with uciMode := mode}
  let stopEvs := if stA.pondering || stA.analysing then [Event.write_to_uci "stop\n"] else []
  let stB := (wait_for_engine stA).fst
  let stC := {stB with
      allMoves := "position startpos moves", plyNum := 1, toPlay := 0, pondering := false}
  let stD := (wait_for_engine stC).fst
  let evs := stopEvs ++ (wait_for_engine stA).snd
      ++ [Event.write_to_uci "ucinewgame\n"] ++ (wait_for_engine stC).snd
  match mode with
  | UCI_MODE.ENGINE_WHITE =>
    (stD, evs ++ [Event.start_game_call "You" stD.engineName t (-1),
      Event.write_to_uci
        ("position startpos\ngo wtime " ++ toString p.wtime
          ++ " btime " ++ toString p.btime ++ "\n")])
  | UCI_MODE.ENGINE_BLACK =>
    (stD, evs ++ [Event.start_game_call "You" stD.engineName t 1])
  | UCI_MODE.ENGINE_ANALYSIS =>
    ({stD with analysing := true},
     evs ++ [Event.write_to_uci "position startpos\ngo infinite\n"])

/-- `user_move_to_uci(move)`: appends the move (clock side effects
included), writes `stop` when pondering or in analysis mode, rendezvous,
transmits the full position command, then `go infinite` (setting
`analysing`) in analysis mode or a timed `go` otherwise. -/
def user_move_to_uci (p : Params) (mv : String) (st : UciState) : UciState × List Event :=
  let r := append_move p.icsMode mv false st
  let st1 := r.fst
  let stopEvs :=
    if st1.pondering || st1.uciMode = UCI_MODE.ENGINE_ANALYSIS then
      [Event.write_to_uci "stop\n"]
    else []
  let st2 := (wait_for_engine st1).fst
  let base := r.snd ++ stopEvs ++ (wait_for_engine st1).snd
      ++ [Event.write_to_uci (st1.allMoves ++ "\n")]
  if st2.uciMode = UCI_MODE.ENGINE_ANALYSIS then
    ({st2 with analysing := true}, base ++ [Event.write_to_uci "go infinite\n"])
  else
    (st2, base ++ [Event.write_to_uci
      ("go wtime " ++ toString p.wtime ++ " btime " ++ toString p.btime ++ "\n")])

/-- The promotion derivation shared by `parse_move` and
`parse_move_with_ponder`: when the token is longer than 4 characters, the
character at index 4 is case-shifted by subtracting 32 from its character
code and handed to `char_to_type`. -/
def derive_promo (charToType : Char → Int) (mv : String) : Option Int :=
  if 4 < mv.length then
    some (charToType (Char.ofNat ((mv.toList.getD 4 ' ').toNat - 32)))
  else none

/-- `parse_move(moveText)`: when pondering or in analysis mode the event is
discarded (the pondering flag is cleared and nothing else happens).
Otherwise the `bestmove (.*)` capture is extracted into the stack buffer
`bestMove`; on `REG_NOMATCH` the C code only logs and FALLS THROUGH, so
the buffer keeps its indeterminate initial contents, modelled by the
`uninit` parameter.  The code then derives a promotion from the buffer if
it is longer than 4 characters, appends the buffer to the history, records
it as the last move, and emits the got-uci-move signal. -/
def parse_move (p : Params) (uninit : String) (moveText : String) (st : UciState) :
    UciState × List Event :=
  if st.pondering then ({st with pondering := false}, [])
  else if st.uciMode = UCI_MODE.ENGINE_ANALYSIS then ({st with pondering := false}, [])
  else
    let bestMove := (best_move_capture moveText).getD uninit
    let st1 :=
      match derive_promo p.charToType bestMove with
      | some pt => {st with promoType := pt}
      | none => st
    let r := append_move p.icsMode bestMove true st1
    (r.fst, r.snd ++ [Event.set_last_move bestMove, Event.got_uci_move])

/-- `parse_move_with_ponder(moveText)`: same discard guards and the same
fall-through on `REG_NOMATCH` (both stack buffers keep their indeterminate
contents `u1`, `u2`); after accepting the move it additionally transmits
the position command extended with the ponder move, writes `go ponder`,
and sets the pondering flag. -/
def parse_move_with_ponder (p : Params) (u1 u2 : String) (moveText : String) (st : UciState) :
    UciState × List Event :=
  if st.pondering then ({st with pondering := false}, [])
  else if st.uciMode = UCI_MODE.ENGINE_ANALYSIS then ({st with pondering := false}, [])
  else
    let cap := (best_move_ponder_capture moveText).getD (u1, u2)
    let bestMove := cap.fst
    let ponderMove := cap.snd
    let st1 :=
      match derive_promo p.charToType bestMove with
      | some pt => {st with promoType := pt}
      | none => st
    let r := append_move p.icsMode bestMove true st1
    ({r.fst with pondering := true},
     r.snd ++ [Event.set_last_move bestMove, Event.got_uci_move,
       Event.write_to_uci (r.fst.allMoves ++ " " ++ ponderMove ++ "\n"),
       Event.write_to_uci "go ponder\n"])

/-- `parse_info(info_depth)`: each field is independently optional; a
centipawn score takes precedence over a mate score; the principal
variation and nodes-per-second fields are extracted on their own.  The
session state is read (for the sign rule) but never written. -/
def parse_info (line : String) (st : UciState) : List Event :=
  let scoreEvs :=
    match find_score_cp line with
    | some v =>
      [Event.set_analysis_score (format_cp (sign_adjust st.uciMode st.toPlay v))]
    | none =>
      match find_score_mate line with
      | some v =>
        [Event.set_analysis_score ("#" ++ toString (sign_adjust st.uciMode st.toPlay v))]
      | none => []
  let pvEvs :=
    match find_pv line.toList with
    | some s => [Event.set_analysis_best_line s]
    | none => []
  let npsEvs :=
    match find_nps line with
    | some n => [Event.set_analysis_nps (toString (n / 1000) ++ " kNps")]
    | none => []
  scoreEvs ++ pvEvs ++ npsEvs

/-- The session-level operations a run of the adapter consists of: the two
caller-thread entry points and the three reader-thread dispatch targets.
Best-move operations carry the indeterminate initial contents of the
handler's stack buffers (see `parse_move`). -/
inductive UciOp where
  | newGame (t : Int) (mode : UCI_MODE)
  | userMove (mv : String)
  | bestMove (uninit line : String)
  | bestMovePonder (u1 u2 line : String)
  | infoLine (line : String)

/-- One operation applied to the session state. -/
def uci_step (p : Params) (st : UciState) : UciOp → UciState × List Event
  | UciOp.newGame t mode => start_new_uci_game p t mode st
  | UciOp.userMove mv => user_move_to_uci p mv st
  | UciOp.bestMove u line => parse_move p u line st
  | UciOp.bestMovePonder u1 u2 line => parse_move_with_ponder p u1 u2 line st
  | UciOp.infoLine line => (st, parse_info line st)

/-- A sequence of operations applied to the session state. -/
def uci_run (p : Params) (st : UciState) (ops : List UciOp) : UciState :=
  ops.foldl (fun s op => (uci_step p s op).fst) st

/-- Folding the shared append primitive over a list of accepted moves. -/
def append_all (icsMode : Bool) (ms : List String) (st : UciState) : UciState :=
  ms.foldl (fun s m => (append_move icsMode m true s).fst) st

/-- The space-joined rendering of a token list, as `append_move` builds it. -/
def join_tokens (ms : List String) : String :=
  ms.foldr (fun m acc => " " ++ m ++ acc) ""

/-- Concrete collaborator parameters used by the witnesses. -/
def exampleParams : Params :=
  { charToType := fun c => (c.toNat : Int), icsMode := false, wtime := 300000, btime := 300000 }

/-- A concrete session state (fresh ENGINE_WHITE game) used by the witnesses. -/
def exampleState : UciState :=
  { uciMode := UCI_MODE.ENGINE_WHITE, pondering := false, analysing := false,
    plyNum := 1, toPlay := 0, allMoves := "position startpos moves",
    uciReady := true, promoType := 0, engineName := "Stockfish" }

/-! ## Helper lemmas -/

theorem append_all_spec (ics : Bool) (ms : List String) :
    ∀ st : UciState,
      (append_all ics ms st).allMoves = st.allMoves ++ join_tokens ms ∧
      (append_all ics ms st).plyNum = st.plyNum + ms.length ∧
      (st.toPlay ≤ 1 → (append_all ics ms st).toPlay = (st.toPlay + ms.length) % 2) := by
  induction ms with
  | nil =>
    intro st
    refine ⟨?_, ?_, ?_⟩
    · simp [append_all, join_tokens, String.append_empty]
    · simp [append_all]
    · intro h; simp [append_all]; omega
  | cons m ms ih =>
    intro st
    have hstep : append_all ics (m :: ms) st = append_all ics ms (append_move ics m true st).fst := by
      simp [append_all]
    obtain ⟨ja, jply, jtp⟩ := ih (append_move ics m true st).fst
    refine ⟨?_, ?_, ?_⟩
    · rw [hstep, ja]
      simp [append_move, join_tokens, String.append_assoc]
    · rw [hstep, jply]
      simp [append_move]
      omega
    · intro h
      rw [hstep]
      have htp1 : (append_move ics m true st).fst.toPlay = if st.toPlay ≠ 0 then 0 else 1 := by
        simp [append_move]
      have hle : (append_move ics m true st).fst.toPlay ≤ 1 := by
        rw [htp1]; split <;> omega
      rw [jtp hle, htp1]
      by_cases h0 : st.toPlay = 0 <;> simp [h0] <;> omega

theorem start_new_fields (p : Params) (t : Int) (mode : UCI_MODE) (st0 : UciState) :
    (start_new_uci_game p t mode st0).fst.allMoves = "position startpos moves" ∧
    (start_new_uci_game p t mode st0).fst.toPlay = 0 ∧
    (start_new_uci_game p t mode st0).fst.plyNum = 1 := by
  cases mode <;> simp [start_new_uci_game, wait_for_engine]

theorem sign_adjust_cond (mode : UCI_MODE) (tp : Nat) (htp : tp ≤ 1) (v : Int) :
    sign_adjust mode tp v =
      if mode = UCI_MODE.ENGINE_BLACK ∨ (mode = UCI_MODE.ENGINE_ANALYSIS ∧ tp = 1)
      then -v else v := by
  have h01 : tp = 0 ∨ tp = 1 := by omega
  cases mode <;> rcases h01 with h | h <;> subst h <;> simp [sign_adjust]

theorem wait_loop_total (flag : Nat → Bool) (elapsedSec : Nat → Nat) :
    ∀ fuel k : Nat, 1 ≤ fuel → 3 < elapsedSec (k + fuel) →
      ∃ r, wait_for_engine_loop flag elapsedSec fuel k = some r := by
  intro fuel
  induction fuel with
  | zero => intro k h1 h2; omega
  | succ fuel ih =>
    intro k h1 h2
    by_cases hf : flag k
    · exact ⟨(k, false), by simp [wait_for_engine_loop, hf]⟩
    · by_cases ht : 3 < elapsedSec (k + 1)
      · exact ⟨(k + 1, true), by simp [wait_for_engine_loop, hf, ht]⟩
      · cases Nat.eq_zero_or_pos fuel with
        | inl h0 =>
          subst h0
          exact absurd (by simpa using h2) ht
        | inr hpos =>
          obtain ⟨r, hr⟩ := ih (k + 1) hpos (by
            have he : k + 1 + fuel = k + (fuel + 1) := by omega
            rw [he]; exact h2)
          exact ⟨r, by simp [wait_for_engine_loop, hf, ht, hr]⟩

theorem wait_loop_timeout (flag : Nat → Bool) (elapsedSec : Nat → Nat)
    (hflag : ∀ k, flag k = false) :
    ∀ fuel k : Nat, 1 ≤ fuel → 3 < elapsedSec (k + fuel) →
      ∃ m, wait_for_engine_loop flag elapsedSec fuel k = some (m, true) ∧ 3 < elapsedSec m := by
  intro fuel
  induction fuel with
  | zero => intro k h1 h2; omega
  | succ fuel ih =>
    intro k h1 h2
    by_cases ht : 3 < elapsedSec (k + 1)
    · exact ⟨k + 1, by simp [wait_for_engine_loop, hflag k, ht], ht⟩
    · cases Nat.eq_zero_or_pos fuel with
      | inl h0 =>
        subst h0
        exact absurd (by simpa using h2) ht
      | inr hpos =>
        obtain ⟨m, hm, hm3⟩ := ih (k + 1) hpos (by
          have he : k + 1 + fuel = k + (fuel + 1) := by omega
          rw [he]; exact h2)
        exact ⟨m, by simp [wait_for_engine_loop, hflag k, ht, hm], hm3⟩

theorem wait_loop_first (flag : Nat → Bool) (elapsedSec : Nat → Nat) :
    ∀ fuel k k0 : Nat, k ≤ k0 → k0 < k + fuel →
      (∀ j, k ≤ j → j < k0 → flag j = false) →
      (∀ j, j ≤ k0 → elapsedSec j ≤ 3) →
      flag k0 = true →
      wait_for_engine_loop flag elapsedSec fuel k = some (k0, false) := by
  intro fuel
  induction fuel with
  | zero => intro k k0 h1 h2; omega
  | succ fuel ih =>
    intro k k0 hk hlt hflag helap hk0
    by_cases he : k = k0
    · subst he; simp [wait_for_engine_loop, hk0]
    · have hkk : k < k0 := by omega
      have hfk : flag k = false := hflag k (le_refl k) hkk
      have hek : ¬ 3 < elapsedSec (k + 1) := by
        have := helap (k + 1) (by omega); omega
      rw [show wait_for_engine_loop flag elapsedSec (fuel + 1) k
            = wait_for_engine_loop flag elapsedSec fuel (k + 1) by
          simp [wait_for_engine_loop, hfk, hek]]
      exact ih (k + 1) k0 (by omega) (by omega)
        (fun j hj1 hj2 => hflag j (by omega) hj2) helap hk0

theorem step_keeps_analysing (p : Params) (st : UciState) (op : UciOp)
    (h : st.analysing = true) : (uci_step p st op).fst.analysing = true := by
  cases op with
  | newGame t mode =>
    cases mode <;> simp [uci_step, start_new_uci_game, wait_for_engine, h]
  | userMove mv =>
    simp only [uci_step, user_move_to_uci, wait_for_engine, append_move]
    split <;> simp [h]
  | bestMove u line =>
    simp only [uci_step, parse_move]
    split
    · simp [h]
    · split
      · simp [h]
      · cases hd : derive_promo p.charToType ((best_move_capture line).getD u) <;>
          simp [hd, append_move, h]
  | bestMovePonder u1 u2 line =>
    simp only [uci_step, parse_move_with_ponder]
    split
    · simp [h]
    · split
      · simp [h]
      · cases hd : derive_promo p.charToType ((best_move_ponder_capture line).getD (u1, u2)).fst <;>
          simp [hd, append_move, h]
  | infoLine line => simpa [uci_step] using h

theorem run_keeps_analysing (p : Params) (ops : List UciOp) :
    ∀ st : UciState, st.analysing = true → (uci_run p st ops).analysing = true := by
  induction ops with
  | nil => intro st h; simpa [uci_run] using h
  | cons op ops ih =>
    intro st h
    have hstep : uci_run p st (op :: ops) = uci_run p (uci_step p st op).fst ops := by
      simp [uci_run]
    rw [hstep]
    exact ih _ (step_keeps_analysing p st op h)

/-! ## Claim theorems -/

/-- Claim C2: a best-move event (bare or with ponder) received while the
pondering flag is set or while the mode is Analysis is discarded: both
handlers return the state unchanged except that the pondering flag is
cleared, and they emit no engine command, clock call or GUI notification. -/
theorem uci_bestmove_discarded (p : Params) (u1 u2 line : String) (st : UciState)
    (h : st.pondering = true ∨ st.uciMode = UCI_MODE.ENGINE_ANALYSIS) :
    parse_move p u1 line st = ({st with pondering := false}, []) ∧
    parse_move_with_ponder p u1 u2 line st = ({st with pondering := false}, []) := by
  rcases h with hp | hm
  · constructor <;> simp [parse_move, parse_move_with_ponder, hp]
  · by_cases hp : st.pondering <;>
      constructor <;> simp [parse_move, parse_move_with_ponder, hp, hm]

/-- Witness for C2 at a concrete pondering state and best-move line. -/
theorem uci_bestmove_discarded_witness :
    parse_move exampleParams "x" "bestmove e2e4" {exampleState with pondering := true}
      = ({exampleState with pondering := false}, []) :=
  (uci_bestmove_discarded exampleParams "x" "y" "bestmove e2e4"
    {exampleState with pondering := true} (Or.inl rfl)).1

/-- Claim C10: with the global ics_mode flag set, append_move performs no
clock operation at all (for any ply number), while still appending the
token, toggling the side to move and incrementing the ply counter. -/
theorem uci_ics_mode_no_clock (mv : String) (lock : Bool) (st : UciState) :
    append_move true mv lock st =
      ({st with
          allMoves := st.allMoves ++ " " ++ mv,
          toPlay := if st.toPlay ≠ 0 then 0 else 1,
          plyNum := st.plyNum + 1}, ([] : List Event)) := rfl

/-- Claim C5: start_new_uci_game writes stop iff pondering or analysing,
then an isready rendezvous; it clears the history to the bare position
marker, resets the ply counter and side to move and the pondering flag;
writes ucinewgame and a second isready; then per mode: EngineWhite calls
start_game and writes position startpos plus a timed go with both clocks'
remaining times, EngineBlack only calls start_game (no search request),
Analysis writes position startpos plus go infinite and sets analysing. -/
theorem uci_start_new_game_behavior (p : Params) (t : Int) (mode : UCI_MODE) (st : UciState) :
    (start_new_uci_game p t mode st).snd =
      (if st.pondering || st.analysing then [Event.write_to_uci "stop\n"] else [])
        ++ [Event.write_to_uci "isready\n", Event.write_to_uci "ucinewgame\n",
            Event.write_to_uci "isready\n"]
        ++ (match mode with
            | UCI_MODE.ENGINE_WHITE =>
              [Event.start_game_call "You" st.engineName t (-1),
               Event.write_to_uci ("position startpos\ngo wtime " ++ toString p.wtime
                 ++ " btime " ++ toString p.btime ++ "\n")]
            | UCI_MODE.ENGINE_BLACK => [Event.start_game_call "You" st.engineName t 1]
            | UCI_MODE.ENGINE_ANALYSIS =>
              [Event.write_to_uci "position startpos\ngo infinite\n"]) ∧
    (start_new_uci_game p t mode st).fst.allMoves = "position startpos moves" ∧
    (start_new_uci_game p t mode st).fst.plyNum = 1 ∧
    (start_new_uci_game p t mode st).fst.toPlay = 0 ∧
    (start_new_uci_game p t mode st).fst.pondering = false ∧
    (start_new_uci_game p t mode st).fst.uciMode = mode ∧
    (start_new_uci_game p t mode st).fst.analysing =
      (if mode = UCI_MODE.ENGINE_ANALYSIS then true else st.analysing) := by
  cases mode <;> simp [start_new_uci_game, wait_for_engine]

/-- Claim C9: the analysing flag is never reset: once it is true, every
session operation leaves it true, and every subsequent start_new_uci_game
(whatever the new mode) writes a stop command first. -/
theorem uci_analysing_latch (p : Params) (st : UciState) (h : st.analysing = true) :
    (∀ ops : List UciOp, (uci_run p st ops).analysing = true) ∧
    (∀ op : UciOp, (uci_step p st op).fst.analysing = true) ∧
    (∀ (t : Int) (mode : UCI_MODE), ∃ rest,
      (start_new_uci_game p t mode st).snd = Event.write_to_uci "stop\n" :: rest) := by
  refine ⟨fun ops => run_keeps_analysing p ops st h,
    fun op => step_keeps_analysing p st op h, ?_⟩
  intro t mode
  refine ⟨(start_new_uci_game p t mode st).snd.tail, ?_⟩
  have hcond : (st.pondering || st.analysing) = true := by rw [h]; simp
  cases mode <;> simp [start_new_uci_game, wait_for_engine, hcond]

/-- Witness for C9: after an analysis session, a new EngineWhite game
still writes stop first. -/
theorem uci_analysing_latch_witness :
    ∃ rest, (start_new_uci_game exampleParams 0 UCI_MODE.ENGINE_WHITE
      {exampleState with analysing := true}).snd
        = Event.write_to_uci "stop\n" :: rest :=
  (uci_analysing_latch exampleParams {exampleState with analysing := true} rfl).2.2
    0 UCI_MODE.ENGINE_WHITE

/-- Claim C6: wait_for_engine clears the ready flag and writes isready, and
its poll loop always returns without raising any error: promptly with no
warning at the first iteration where the ready flag reads true (while the
budget is not yet exceeded), and, whenever the flag is never set, at the
first iteration where the observed elapsed seconds exceed the 3-second
budget, with the suspected-crash warning (second component true).  The
hypotheses say only that observed wall-clock time is monotone and
eventually exceeds the budget within the modelled iterations. -/
theorem uci_wait_for_engine_behavior (flag : Nat → Bool) (elapsedSec : Nat → Nat)
    (fuel : Nat) (hfuel : 1 ≤ fuel)
    (hbudget : 3 < elapsedSec fuel) :
    (∀ st : UciState, wait_for_engine st =
      ({st with uciReady := false}, [Event.write_to_uci "isready\n"])) ∧
    (∃ r, wait_for_engine_loop flag elapsedSec fuel 0 = some r) ∧
    ((∀ k, flag k = false) →
      ∃ m, wait_for_engine_loop flag elapsedSec fuel 0 = some (m, true) ∧ 3 < elapsedSec m) ∧
    (∀ k0, k0 < fuel → flag k0 = true → (∀ j, j < k0 → flag j = false) →
      (∀ j, j ≤ k0 → elapsedSec j ≤ 3) →
      wait_for_engine_loop flag elapsedSec fuel 0 = some (k0, false)) := by
  refine ⟨fun st => rfl, ?_, ?_, ?_⟩
  · exact wait_loop_total flag elapsedSec fuel 0 hfuel (by simpa using hbudget)
  · intro hflag
    exact wait_loop_timeout flag elapsedSec hflag fuel 0 hfuel (by simpa using hbudget)
  · intro k0 h1 h2 h3 h4
    exact wait_loop_first flag elapsedSec fuel 0 k0 (Nat.zero_le _) (by omega)
      (fun j _ hj => h3 j hj) h4 h2

/-- Witness for C6: with the ready flag never set and one elapsed second
per iteration, the loop returns a timeout-with-warning result. -/
theorem uci_wait_for_engine_witness :
    ∃ m, wait_for_engine_loop (fun _ => false) (fun k => k) 10 0 = some (m, true) ∧ 3 < m :=
  (uci_wait_for_engine_behavior (fun _ => false) (fun k => k) 10 (by decide)
    (by decide)).2.2.1 (fun _ => rfl)

/-- Claim C3: for an info line carrying a centipawn score with raw value v,
the emitted score string is the two-fraction-digit rendering of -v/100
exactly when the mode is EngineBlack or the mode is Analysis with the
second mover (side-to-move value 1) to move, and of v/100 otherwise; in
particular the value is never negated in EngineWhite mode. -/
theorem uci_cp_score_sign (st : UciState) (line : String) (v : Int)
    (htp : st.toPlay ≤ 1) (hcp : find_score_cp line = some v) :
    Event.set_analysis_score (format_cp
        (if st.uciMode = UCI_MODE.ENGINE_BLACK
            ∨ (st.uciMode = UCI_MODE.ENGINE_ANALYSIS ∧ st.toPlay = 1)
          then -v else v)) ∈ parse_info line st ∧
    (st.uciMode = UCI_MODE.ENGINE_WHITE →
      Event.set_analysis_score (format_cp v) ∈ parse_info line st) := by
  have hs := sign_adjust_cond st.uciMode st.toPlay htp v
  constructor
  · simp [parse_info, hcp, hs]
  · intro hw
    simp [parse_info, hcp, hw, sign_adjust]

/-- Witness for C3 on the spec's end-to-end info line under EngineWhite. -/
theorem uci_cp_score_sign_witness :
    find_score_cp "info depth 12 score cp -35 nps 240000 pv e7e5 g1f3" = some (-35) ∧
    format_cp (-35) = "-0.35" ∧
    Event.set_analysis_score (format_cp (-35))
      ∈ parse_info "info depth 12 score cp -35 nps 240000 pv e7e5 g1f3" exampleState :=
  ⟨by decide, by decide,
    (uci_cp_score_sign exampleState "info depth 12 score cp -35 nps 240000 pv e7e5 g1f3"
      (-35) (by decide) (by decide)).2 rfl⟩

/-- Claim C8: for an info line carrying a mate score (and no centipawn
score), the emitted string is a hash sign followed by the signed integer,
the raw value being sign-flipped by the same rule as centipawn scores. -/
theorem uci_mate_score_format (st : UciState) (line : String) (v : Int)
    (htp : st.toPlay ≤ 1) (hcp : find_score_cp line = none)
    (hmate : find_score_mate line = some v) :
    Event.set_analysis_score ("#" ++ toString
        (if st.uciMode = UCI_MODE.ENGINE_BLACK
            ∨ (st.uciMode = UCI_MODE.ENGINE_ANALYSIS ∧ st.toPlay = 1)
          then -v else v)) ∈ parse_info line st ∧
    (st.uciMode = UCI_MODE.ENGINE_WHITE →
      Event.set_analysis_score ("#" ++ toString v) ∈ parse_info line st) := by
  have hs := sign_adjust_cond st.uciMode st.toPlay htp v
  constructor
  · simp [parse_info, hcp, hmate, hs]
  · intro hw
    simp [parse_info, hcp, hmate, hw, sign_adjust]

/-- Witness for C8 on a concrete mate-score line under EngineWhite. -/
theorem uci_mate_score_format_witness :
    find_score_cp "info depth 10 seldepth 12 score mate -3" = none ∧
    find_score_mate "info depth 10 seldepth 12 score mate -3" = some (-3) ∧
    ("#" ++ toString (-3 : Int)) = "#-3" ∧
    Event.set_analysis_score ("#" ++ toString (-3 : Int))
      ∈ parse_info "info depth 10 seldepth 12 score mate -3" exampleState :=
  ⟨by decide, by decide, by decide,
    (uci_mate_score_format exampleState "info depth 10 seldepth 12 score mate -3"
      (-3) (by decide) (by decide) (by decide)).2 rfl⟩

/-- Claim C7: for an accepted best-move token of length at most 4 no
promotion piece is derived (the promo global is untouched); for a longer
token the derived piece is char_to_type applied to the character at index
4 shifted down by 32 in character code, and the token is appended to the
history verbatim in both cases. -/
theorem uci_promotion_rule (p : Params) (u : String) (st : UciState) (line mv : String)
    (hp : st.pondering = false) (hm : st.uciMode ≠ UCI_MODE.ENGINE_ANALYSIS)
    (hcap : best_move_capture line = some mv) :
    (mv.length ≤ 4 → derive_promo p.charToType mv = none) ∧
    (4 < mv.length → derive_promo p.charToType mv
        = some (p.charToType (Char.ofNat ((mv.toList.getD 4 ' ').toNat - 32)))) ∧
    (mv.length ≤ 4 → (parse_move p u line st).fst.promoType = st.promoType) ∧
    (4 < mv.length → (parse_move p u line st).fst.promoType
        = p.charToType (Char.ofNat ((mv.toList.getD 4 ' ').toNat - 32))) ∧
    (parse_move p u line st).fst.allMoves = st.allMoves ++ " " ++ mv := by
  refine ⟨?_, ?_, ?_, ?_, ?_⟩
  · intro h4; simp [derive_promo, Nat.not_lt.mpr h4]
  · intro h4; simp [derive_promo, h4]
  · intro h4
    simp [parse_move, hp, hm, hcap, derive_promo, Nat.not_lt.mpr h4, append_move]
  · intro h4
    simp [parse_move, hp, hm, hcap, derive_promo, h4, append_move]
  · cases hd : derive_promo p.charToType mv <;>
      simp [parse_move, hp, hm, hcap, hd, append_move]

/-- Witness for C7 on the spec's end-to-end promotion line. -/
theorem uci_promotion_rule_witness :
    best_move_capture "bestmove e7e8q" = some "e7e8q" ∧
    (parse_move exampleParams "" "bestmove e7e8q" exampleState).fst.promoType = 81 ∧
    (parse_move exampleParams "" "bestmove e7e8q" exampleState).fst.allMoves
      = "position startpos moves e7e8q" := by
  have h := uci_promotion_rule exampleParams "" exampleState "bestmove e7e8q" "e7e8q"
    rfl (by decide) (by decide)
  exact ⟨by decide, (h.2.2.2.1 (by decide)).trans (by decide), h.2.2.2.2.trans (by decide)⟩

/-- Claim C4: the move history is append-only: from a fresh game (any
mode), folding the shared append primitive over N accepted moves yields
the bare position marker followed by exactly those tokens, with the side
to move equal to N modulo 2 (0 = first mover) and the ply counter equal to
N + 1; and each of the three acceptance paths (user move, bare engine best
move, engine best move with ponder) extends the history by exactly its one
token, toggles the side to move and advances the ply counter by one. -/
theorem uci_history_append_only (p : Params) (u1 u2 : String) (t : Int) (mode : UCI_MODE)
    (st0 st : UciState) (ms : List String) (mv pondMv line : String) :
    ((append_all p.icsMode ms (start_new_uci_game p t mode st0).fst).allMoves
        = "position startpos moves" ++ join_tokens ms ∧
      (append_all p.icsMode ms (start_new_uci_game p t mode st0).fst).toPlay
        = ms.length % 2 ∧
      (append_all p.icsMode ms (start_new_uci_game p t mode st0).fst).plyNum
        = ms.length + 1) ∧
    ((user_move_to_uci p mv st).fst.allMoves = st.allMoves ++ " " ++ mv ∧
      (user_move_to_uci p mv st).fst.toPlay = (if st.toPlay ≠ 0 then 0 else 1) ∧
      (user_move_to_uci p mv st).fst.plyNum = st.plyNum + 1) ∧
    (st.pondering = false → st.uciMode ≠ UCI_MODE.ENGINE_ANALYSIS →
      best_move_capture line = some mv →
      ((parse_move p u1 line st).fst.allMoves = st.allMoves ++ " " ++ mv ∧
        (parse_move p u1 line st).fst.toPlay = (if st.toPlay ≠ 0 then 0 else 1) ∧
        (parse_move p u1 line st).fst.plyNum = st.plyNum + 1)) ∧
    (st.pondering = false → st.uciMode ≠ UCI_MODE.ENGINE_ANALYSIS →
      best_move_ponder_capture line = some (mv, pondMv) →
      ((parse_move_with_ponder p u1 u2 line st).fst.allMoves = st.allMoves ++ " " ++ mv ∧
        (parse_move_with_ponder p u1 u2 line st).fst.toPlay
          = (if st.toPlay ≠ 0 then 0 else 1) ∧
        (parse_move_with_ponder p u1 u2 line st).fst.plyNum = st.plyNum + 1)) := by
  obtain ⟨hA, hT, hP⟩ := start_new_fields p t mode st0
  obtain ⟨ja, jply, jtp⟩ := append_all_spec p.icsMode ms ((start_new_uci_game p t mode st0).fst)
  refine ⟨⟨?_, ?_, ?_⟩, ⟨?_, ?_, ?_⟩, ?_, ?_⟩
  · rw [ja, hA]
  · have h2 := jtp (by rw [hT]; omega)
    rw [h2, hT]; omega
  · rw [jply, hP]; omega
  · simp only [user_move_to_uci, wait_for_engine, append_move]
    split <;> rfl
  · simp only [user_move_to_uci, wait_for_engine, append_move]
    split <;> rfl
  · simp only [user_move_to_uci, wait_for_engine, append_move]
    split <;> rfl
  · intro hp hm hcap
    cases hd : derive_promo p.charToType mv <;>
      exact ⟨by simp [parse_move, hp, hm, hcap, hd, append_move],
        by simp [parse_move, hp, hm, hcap, hd, append_move],
        by simp [parse_move, hp, hm, hcap, hd, append_move]⟩
  · intro hp hm hcap
    cases hd : derive_promo p.charToType mv <;>
      exact ⟨by simp [parse_move_with_ponder, hp, hm, hcap, hd, append_move],
        by simp [parse_move_with_ponder, hp, hm, hcap, hd, append_move],
        by simp [parse_move_with_ponder, hp, hm, hcap, hd, append_move]⟩

/-- Witness for C4 on the spec's end-to-end scenario step. -/
theorem uci_history_append_only_witness :
    (parse_move exampleParams "" "bestmove e2e4" exampleState).fst.allMoves
      = exampleState.allMoves ++ " " ++ "e2e4" :=
  ((uci_history_append_only exampleParams "" "" 0 UCI_MODE.ENGINE_WHITE exampleState
      exampleState [] "e2e4" "" "bestmove e2e4").2.2.1 rfl (by decide) (by decide)).1

/-- Claim C1 (code bug in parse_move): on a best-move-classified line whose
bestmove capture fails, the C code logs and falls through instead of
returning: for every possible initial contents u of the uninitialized
stack buffer, the history still grows by one (garbage) token, the ply
counter still advances, and the got-uci-move GUI signal is still emitted,
contradicting the claim that a parse mismatch is silently skipped and
leaves session state unchanged. -/
theorem uci_bestmove_mismatch_mutates (u : String) :
    best_move_capture "bestmove" = none ∧
    (parse_move exampleParams u "bestmove" exampleState).fst.allMoves
      = exampleState.allMoves ++ " " ++ u ∧
    (parse_move exampleParams u "bestmove" exampleState).fst.plyNum
      = exampleState.plyNum + 1 ∧
    Event.got_uci_move ∈ (parse_move exampleParams u "bestmove" exampleState).snd := by
  have hc : best_move_capture "bestmove" = none := by decide
  have hics : exampleParams.icsMode = false := rfl
  refine ⟨hc, ?_, ?_, ?_⟩ <;>
    cases hd : derive_promo exampleParams.charToType u <;>
      simp [parse_move, hc, hd, append_move, hics, exampleState]
